import Mathlib

/-!
Verification development for the SAPT booking application.

The repository source under `src/frontend` is the React client; the FastAPI
backend (`/app/backend/server.py` in the PRD's file list) is not part of the
source tree, so the Booking Engine, Waitlist Engine and Credit Ledger are
modelled from the specification (sections 3, 4 and 7 of spec.md), while the
frontend constants (slot identifiers, credit packages, recurring-week
choices) are embedded directly from the JSX sources.

Dates are modelled as day numbers (Nat); the date arithmetic of recurring
bookings (`date + 7*i` days) is then plain addition. The model is
sequential: each engine operation is one atomic step, which is exactly the
atomicity the spec demands of the implementation (spec.md section 5).
-/

namespace SAPT

/-- The two fixed daily time slots. The frontend renders exactly the keys
"morning" and "afternoon" (DashboardPage.jsx lines 429-430). -/
inductive TimeSlot
  | morning
  | afternoon
deriving DecidableEq, Repr

/-- Capacity constant: maximum simultaneous bookings per (date, slot),
fixed at 3 (spec.md glossary; DashboardPage.jsx renders occupancy as n/3). -/
def capacity : Nat := 3

/-- A user account as the Credit Ledger sees it: credit balance,
unlimited-plan flag, admin flag (spec.md section 3, User). -/
structure User where
  credits : Nat
  unlimited : Bool
  admin : Bool
deriving DecidableEq, Repr

/-- A booking record: id, owner, date, slot, recurring-origin flag,
waitlist-origin flag (spec.md section 3, Booking). -/
structure Booking where
  id : Nat
  userId : Nat
  date : Nat
  slot : TimeSlot
  isRecurring : Bool
  fromWaitlist : Bool
deriving DecidableEq, Repr

/-- A waitlist entry: id, owner, date, slot and queue position
(spec.md section 3, WaitlistEntry). -/
structure WaitlistEntry where
  id : Nat
  userId : Nat
  date : Nat
  slot : TimeSlot
  position : Nat
deriving DecidableEq, Repr

/-- The three credit packages offered by BuyCredits.jsx (PACKAGES,
lines 26-30). -/
inductive PackageType
  | single
  | double
  | unlimited
deriving DecidableEq, Repr

/-- Transaction status: pending until the admin confirms
(spec.md section 3, CreditTransaction). -/
inductive TxnStatus
  | pending
  | confirmed
deriving DecidableEq, Repr

/-- A credit-purchase transaction (spec.md section 3, CreditTransaction). -/
structure CreditTransaction where
  id : Nat
  userId : Nat
  package : PackageType
  amount : Nat
  status : TxnStatus
deriving DecidableEq, Repr

/-- Package price in dollars, from BuyCredits.jsx PACKAGES (lines 27-29). -/
def packagePrice : PackageType → Nat
  | .single => 30
  | .double => 40
  | .unlimited => 50

/-- Credits granted per package, from BuyCredits.jsx PACKAGES (lines 27-29);
the 999 of the unlimited package is display-only, the unlimited flag is
what matters (spec.md section 3). -/
def packageCredits : PackageType → Nat
  | .single => 1
  | .double => 2
  | .unlimited => 999

/-- The error taxonomy of spec.md section 7. -/
inductive EngineError
  | slotFull
  | slotNotFull
  | alreadyBooked
  | alreadyWaitlisted
  | insufficientCredit
  | notFound
  | notOwner
  | pastDate
deriving DecidableEq, Repr

/-- The whole persistent state the engines mutate: the user table, the
bookings, the waitlist, the credit transactions, an id counter and the
current day (used for the PastDateError check of spec.md section 4.2). -/
structure EngineState where
  users : Nat → User
  bookings : List Booking
  waitlist : List WaitlistEntry
  transactions : List CreditTransaction
  nextId : Nat
  today : Nat

/-- The (date, slot) key predicate on bookings. -/
def bookingKeyP (d : Nat) (sl : TimeSlot) : Booking → Bool :=
  fun b => decide (b.date = d ∧ b.slot = sl)

/-- Active bookings of a (date, slot) key within a booking list. -/
def countAt (l : List Booking) (d : Nat) (sl : TimeSlot) : Nat :=
  (l.filter (bookingKeyP d sl)).length

/-- The (date, slot) key predicate on waitlist entries. -/
def entryKeyP (d : Nat) (sl : TimeSlot) : WaitlistEntry → Bool :=
  fun e => decide (e.date = d ∧ e.slot = sl)

/-- The waitlist queue of a (date, slot) key, in insertion (FIFO) order. -/
def queueAt (l : List WaitlistEntry) (d : Nat) (sl : TimeSlot) : List WaitlistEntry :=
  l.filter (entryKeyP d sl)

/-- Whether a user already holds a booking for (date, slot). -/
def userBookedAt (s : EngineState) (u d : Nat) (sl : TimeSlot) : Bool :=
  s.bookings.any (fun b => decide (b.userId = u ∧ b.date = d ∧ b.slot = sl))

/-- Whether a user already holds a waitlist entry for (date, slot). -/
def userWaitlistedAt (s : EngineState) (u d : Nat) (sl : TimeSlot) : Bool :=
  s.waitlist.any (fun e => decide (e.userId = u ∧ e.date = d ∧ e.slot = sl))

/-- Point update of the user table. -/
def updateUser (uid : Nat) (f : User → User) (s : EngineState) : EngineState :=
  { s with users := fun v => if v = uid then f (s.users v) else s.users v }

/-- Modelled from the spec: the Credit Ledger's debit operation
(spec.md section 4.1); the backend server.py is not in src/. Unlimited
users are exempt; otherwise the debit fails atomically with
InsufficientCredit when balance is below the amount. -/
def debit (uid amount : Nat) (s : EngineState) : Except EngineError Unit × EngineState :=
  if (s.users uid).unlimited then (Except.ok (), s)
  else if (s.users uid).credits < amount then (Except.error EngineError.insufficientCredit, s)
  else (Except.ok (), updateUser uid (fun u => { u with credits := u.credits - amount }) s)

/-- Modelled from the spec: the Credit Ledger's credit operation
(spec.md section 4.1); the backend server.py is not in src/. -/
def creditUser (uid amount : Nat) (s : EngineState) : EngineState :=
  updateUser uid (fun u => { u with credits := u.credits + amount }) s

/-- Modelled from the spec: the Credit Ledger's grantUnlimited operation
(spec.md section 4.1); the backend server.py is not in src/. -/
def grantUnlimited (uid : Nat) (s : EngineState) : EngineState :=
  updateUser uid (fun u => { u with unlimited := true }) s

/-- Modelled from the spec: the Booking Engine's bookSingle operation
(spec.md section 4.3); the backend server.py is not in src/. Checks, in
order: past date, slot capacity, duplicate booking, then debits one credit
(unless unlimited) and inserts the booking. Returns the new booking id. -/
def bookSingle (uid d : Nat) (sl : TimeSlot) (s : EngineState) :
    Except EngineError Nat × EngineState :=
  if d < s.today then (Except.error EngineError.pastDate, s)
  else if capacity ≤ countAt s.bookings d sl then (Except.error EngineError.slotFull, s)
  else if userBookedAt s uid d sl then (Except.error EngineError.alreadyBooked, s)
  else
    match debit uid 1 s with
    | (Except.error e, _) => (Except.error e, s)
    | (Except.ok _, s₁) =>
      (Except.ok s.nextId,
        { s₁ with
          bookings := s₁.bookings ++ [⟨s.nextId, uid, d, sl, false, false⟩],
          nextId := s.nextId + 1 })

/-- Modelled from the spec: the Waitlist Engine's joinWaitlist operation
(spec.md section 4.4); the backend server.py is not in src/. Only accepts
entries once the slot is full; appends with position = queue length + 1. -/
def joinWaitlist (uid d : Nat) (sl : TimeSlot) (s : EngineState) :
    Except EngineError Nat × EngineState :=
  if d < s.today then (Except.error EngineError.pastDate, s)
  else if countAt s.bookings d sl < capacity then (Except.error EngineError.slotNotFull, s)
  else if userBookedAt s uid d sl then (Except.error EngineError.alreadyBooked, s)
  else if userWaitlistedAt s uid d sl then (Except.error EngineError.alreadyWaitlisted, s)
  else
    (Except.ok ((queueAt s.waitlist d sl).length + 1),
      { s with
        waitlist :=
          s.waitlist ++ [⟨s.nextId, uid, d, sl, (queueAt s.waitlist d sl).length + 1⟩],
        nextId := s.nextId + 1 })

/-- The renumbering step: entries of the removed entry's (date, slot)
queue that sat behind it move up one position. -/
def shiftAfter (e : WaitlistEntry) (x : WaitlistEntry) : WaitlistEntry :=
  if x.date = e.date ∧ x.slot = e.slot ∧ e.position < x.position then
    { x with position := x.position - 1 }
  else x

/-- Removal of one waitlist entry together with the mandatory renumbering:
every later entry of the same (date, slot) queue has its position
decremented by one, in the same atomic step (spec.md section 4.4). -/
def removeWaitlistEntry (e : WaitlistEntry) (s : EngineState) : EngineState :=
  { s with waitlist := (s.waitlist.erase e).map (shiftAfter e) }

/-- Modelled from the spec: the Waitlist Engine's leaveWaitlist operation
(spec.md section 4.4); the backend server.py is not in src/. The actor must
be the owner or an admin; removal and renumbering happen in one step. -/
def leaveWaitlist (actor wid : Nat) (s : EngineState) :
    Except EngineError Unit × EngineState :=
  match s.waitlist.find? (fun e => decide (e.id = wid)) with
  | none => (Except.error EngineError.notFound, s)
  | some e =>
    if actor = e.userId ∨ (s.users actor).admin then
      (Except.ok (), removeWaitlistEntry e s)
    else (Except.error EngineError.notOwner, s)

/-- One pass of the promotion loop: pops the head of the (date, slot)
queue (position 1 under the queue invariant), admits it when the credit
check passes, otherwise drops the entry and moves to the next one
(spec.md sections 4.4 and 8). Fuel bounds the recursion by the queue
length. -/
def promoteLoop (d : Nat) (sl : TimeSlot) : Nat → EngineState → EngineState
  | 0, s => s
  | fuel + 1, s =>
    if capacity ≤ countAt s.bookings d sl then s
    else
      match (queueAt s.waitlist d sl).head? with
      | none => s
      | some e =>
        if userBookedAt s e.userId d sl then
          promoteLoop d sl fuel (removeWaitlistEntry e s)
        else
          match debit e.userId 1 s with
          | (Except.error _, _) => promoteLoop d sl fuel (removeWaitlistEntry e s)
          | (Except.ok _, s₁) =>
            { removeWaitlistEntry e s₁ with
              bookings := (removeWaitlistEntry e s₁).bookings
                ++ [⟨s₁.nextId, e.userId, d, sl, false, true⟩],
              nextId := s₁.nextId + 1 }

/-- Modelled from the spec: the Waitlist Engine's tryPromote operation
(spec.md section 4.4); the backend server.py is not in src/. -/
def tryPromote (d : Nat) (sl : TimeSlot) (s : EngineState) : EngineState :=
  promoteLoop d sl s.waitlist.length s

/-- Modelled from the spec: the Booking Engine's cancel operation
(spec.md section 4.3); the backend server.py is not in src/. On success the
booking is removed, one credit is credited back to the owner
unconditionally, then tryPromote runs for the freed (date, slot). -/
def cancel (actor bid : Nat) (s : EngineState) :
    Except EngineError Unit × EngineState :=
  match s.bookings.find? (fun b => decide (b.id = bid)) with
  | none => (Except.error EngineError.notFound, s)
  | some b =>
    if actor = b.userId ∨ (s.users actor).admin then
      (Except.ok (),
        tryPromote b.date b.slot
          (creditUser b.userId 1 { s with bookings := s.bookings.erase b }))
    else (Except.error EngineError.notOwner, s)

/-- Summary returned by a recurring booking: booked dates, waitlisted
dates, and the hard failure that halted the sequence, if any
(spec.md section 4.3). -/
structure RecurringSummary where
  booked : List Nat
  waitlisted : List Nat
  halted : Option EngineError
deriving DecidableEq, Repr

/-- One week of the recurring loop: a full slot falls back to a waitlist
join and the loop continues; credit exhaustion halts the remaining
attempts; other per-week failures leave that week out and continue
(weeks are independent, spec.md section 4.3). -/
def recurStep (uid : Nat) (sl : TimeSlot) :
    RecurringSummary × EngineState → Nat → RecurringSummary × EngineState
  | (acc, s), d =>
    if acc.halted.isSome then (acc, s)
    else
      match bookSingle uid d sl s with
      | (Except.ok _, s') => ({ acc with booked := acc.booked ++ [d] }, s')
      | (Except.error EngineError.slotFull, _) =>
        match joinWaitlist uid d sl s with
        | (Except.ok _, s') => ({ acc with waitlisted := acc.waitlisted ++ [d] }, s')
        | (Except.error _, _) => (acc, s)
      | (Except.error EngineError.insufficientCredit, _) =>
        ({ acc with halted := some EngineError.insufficientCredit }, s)
      | (Except.error _, _) => (acc, s)

/-- The dates targeted by a recurring booking of `weeks` weeks anchored at
`d`: d + 7*i for i in 0..weeks-1, in chronological order. -/
def weekDates (d weeks : Nat) : List Nat :=
  (List.range weeks).map (fun i => d + 7 * i)

/-- Modelled from the spec: the Booking Engine's bookRecurring operation
(spec.md section 4.3); the backend server.py is not in src/. Processes the
weeks chronologically from the anchor date. -/
def bookRecurring (uid d : Nat) (sl : TimeSlot) (weeks : Nat) (s : EngineState) :
    RecurringSummary × EngineState :=
  (weekDates d weeks).foldl (recurStep uid sl) (⟨[], [], none⟩, s)

/-- Modelled from the spec: the credit purchase request
(spec.md section 3, CreditTransaction); the backend server.py is not in
src/. Creates a pending transaction; no ledger effect. -/
def requestPurchase (uid : Nat) (pkg : PackageType) (s : EngineState) :
    Except EngineError Nat × EngineState :=
  (Except.ok s.nextId,
    { s with
      transactions :=
        s.transactions ++ [⟨s.nextId, uid, pkg, packagePrice pkg, TxnStatus.pending⟩],
      nextId := s.nextId + 1 })

/-- Modelled from the spec: the admin confirmation of a pending credit
transaction (spec.md sections 3 and 8); the backend server.py is not in
src/. Confirming is the sole trigger for crediting the ledger: a counted
package adds its credit count to the balance, the unlimited package sets
the unlimited flag and does not touch the numeric balance. The admin UI
only offers confirmation on pending transactions (AdminDashboard.jsx line
362), so a non-pending id is treated as not found. -/
def confirmTransaction (tid : Nat) (s : EngineState) :
    Except EngineError Unit × EngineState :=
  match s.transactions.find? (fun t => decide (t.id = tid ∧ t.status = TxnStatus.pending)) with
  | none => (Except.error EngineError.notFound, s)
  | some t =>
    let s₁ :=
      match t.package with
      | PackageType.unlimited => grantUnlimited t.userId s
      | p => creditUser t.userId (packageCredits p) s
    (Except.ok (),
      { s₁ with
        transactions :=
          s₁.transactions.map (fun x =>
            if x.id = tid then { x with status := TxnStatus.confirmed } else x) })

/-! ## Frontend constants, embedded from the JSX sources -/

/-- The slot keys the dashboard renders, exactly as passed to renderSlot
(DashboardPage.jsx lines 429-430). -/
def dashboardSlotKeys : List String := ["morning", "afternoon"]

/-- The slot keys whose session times the admin settings page edits
(AdminDashboard.jsx updateSessionTime call sites, lines 446-478). -/
def adminSessionSlotKeys : List String := ["morning", "afternoon"]

/-- The heading renderSlot shows for a slot key
(DashboardPage.jsx line 205). -/
def slotHeading (k : String) : String :=
  if k = "morning" then "Early Morning" else "Mid-Morning"

/-- The time range BookingsPage shows for an entry's time_slot
(BookingsPage.jsx line 149). -/
def waitlistTimeDisplay (ts : String) : String :=
  if ts = "morning" then "5:30 AM - 6:15 AM" else "9:30 AM - 10:15 AM"

/-- Initial value of the recurringWeeks component state
(DashboardPage.jsx line 42, useState(4)). -/
def recurringWeeksDefault : Nat := 4

/-- The week counts offered by the recurring-booking dialog
(DashboardPage.jsx line 460). -/
def recurringWeeksOptions : List Nat := [2, 4, 6, 8]

/-- The JSON body handleBookSlot posts to the bookings endpoint
(DashboardPage.jsx lines 74-79). -/
structure BookingRequest where
  date : Nat
  time_slot : String
  is_recurring : Bool
  recurring_weeks : Nat
deriving DecidableEq, Repr

/-- The request handleBookSlot builds (DashboardPage.jsx lines 74-79). -/
def bookSlotRequest (d : Nat) (slotKey : String) (isRecurring : Bool)
    (weeks : Nat) : BookingRequest :=
  ⟨d, slotKey, isRecurring, weeks⟩

/-- The recurring-booking request the dialog's confirm button issues:
handleBookSlot(recurringSlot, true, recurringWeeks)
(DashboardPage.jsx line 512). -/
def recurringBookingRequest (d : Nat) (slotKey : String) (weeks : Nat) :
    BookingRequest :=
  bookSlotRequest d slotKey true weeks

/-- One user interaction with the recurringWeeks state: clicking one of the
dialog's week buttons, which calls setRecurringWeeks(weeks) for a weeks
value drawn from the rendered option list (DashboardPage.jsx
lines 460-463). -/
inductive WeeksStep : Nat → Nat → Prop
  | select (w w' : Nat) : w' ∈ recurringWeeksOptions → WeeksStep w w'

/-- The recurringWeeks values reachable from the initial state through any
sequence of button clicks. -/
def WeeksReachable (w : Nat) : Prop :=
  Relation.ReflTransGen WeeksStep recurringWeeksDefault w

/-! ## The step relation of the engine and its invariants -/

/-- One engine operation, applied with arbitrary arguments. Errors leave
the state unchanged, so the resulting state is taken unconditionally. -/
inductive Step : EngineState → EngineState → Prop
  | book (u d : Nat) (sl : TimeSlot) (s : EngineState) :
      Step s (bookSingle u d sl s).2
  | cancelStep (a bid : Nat) (s : EngineState) :
      Step s (cancel a bid s).2
  | join (u d : Nat) (sl : TimeSlot) (s : EngineState) :
      Step s (joinWaitlist u d sl s).2
  | leave (a wid : Nat) (s : EngineState) :
      Step s (leaveWaitlist a wid s).2
  | recur (u d : Nat) (sl : TimeSlot) (w : Nat) (s : EngineState) :
      Step s (bookRecurring u d sl w s).2

/-- Reachability by any sequence of engine operations. -/
def Reach (s s' : EngineState) : Prop :=
  Relation.ReflTransGen Step s s'

/-- The capacity invariant: no (date, slot) holds more active bookings
than the capacity constant (spec.md section 8). -/
def CapInv (s : EngineState) : Prop :=
  ∀ d sl, countAt s.bookings d sl ≤ capacity

/-- The queue invariant: within each (date, slot) queue, read in insertion
(FIFO) order, the positions are exactly 1, 2, ..., length
(spec.md section 3, WaitlistEntry). -/
def QueueInv (s : EngineState) : Prop :=
  ∀ d sl, (queueAt s.waitlist d sl).map (fun e => e.position)
    = List.range' 1 (queueAt s.waitlist d sl).length

/-! ## Frame lemmas -/

theorem debit_snd_bookings (u a : Nat) (s : EngineState) :
    ((debit u a s).2).bookings = s.bookings := by
  unfold debit
  split
  · rfl
  · split <;> rfl

theorem debit_snd_waitlist (u a : Nat) (s : EngineState) :
    ((debit u a s).2).waitlist = s.waitlist := by
  unfold debit
  split
  · rfl
  · split <;> rfl

theorem joinWaitlist_snd_bookings (u d : Nat) (sl : TimeSlot) (s : EngineState) :
    ((joinWaitlist u d sl s).2).bookings = s.bookings := by
  unfold joinWaitlist
  split
  · rfl
  · split
    · rfl
    · split
      · rfl
      · split <;> rfl

theorem bookSingle_snd_waitlist (u d : Nat) (sl : TimeSlot) (s : EngineState) :
    ((bookSingle u d sl s).2).waitlist = s.waitlist := by
  unfold bookSingle
  split
  · rfl
  · split
    · rfl
    · split
      · rfl
      · split
        · rfl
        · next x s₁ heq =>
          show s₁.waitlist = s.waitlist
          have h := debit_snd_waitlist u 1 s
          rw [heq] at h
          exact h

/-! ## Counting lemmas and the capacity invariant -/

theorem countAt_append (l₁ l₂ : List Booking) (d : Nat) (sl : TimeSlot) :
    countAt (l₁ ++ l₂) d sl = countAt l₁ d sl + countAt l₂ d sl := by
  simp [countAt, List.filter_append]

theorem countAt_single (b : Booking) (d : Nat) (sl : TimeSlot) :
    countAt [b] d sl = if b.date = d ∧ b.slot = sl then 1 else 0 := by
  by_cases h : b.date = d ∧ b.slot = sl <;>
    simp [countAt, bookingKeyP, List.filter_cons, h]

theorem countAt_erase_le (l : List Booking) (b : Booking) (d : Nat) (sl : TimeSlot) :
    countAt (l.erase b) d sl ≤ countAt l d sl :=
  List.Sublist.length_le ((List.erase_sublist b l).filter _)

theorem capInv_insert {l : List Booking} {b : Booking}
    (h : ∀ d sl, countAt l d sl ≤ capacity)
    (hlt : countAt l b.date b.slot < capacity) :
    ∀ d sl, countAt (l ++ [b]) d sl ≤ capacity := by
  intro d sl
  rw [countAt_append, countAt_single]
  by_cases hk : b.date = d ∧ b.slot = sl
  · rw [if_pos hk]
    obtain ⟨hd, hs⟩ := hk
    subst hd
    subst hs
    omega
  · rw [if_neg hk]
    have := h d sl
    omega

theorem capInv_bookSingle {s : EngineState} (h : CapInv s) (u d : Nat) (sl : TimeSlot) :
    CapInv (bookSingle u d sl s).2 := by
  unfold bookSingle
  split
  · exact h
  · split
    · exact h
    · next hfull =>
      split
      · exact h
      · split
        · exact h
        · next x s₁ heq =>
          intro d' sl'
          have hb : s₁.bookings = s.bookings := by
            have hh := debit_snd_bookings u 1 s
            rw [heq] at hh
            exact hh
          show countAt (s₁.bookings ++ [⟨s.nextId, u, d, sl, false, false⟩]) d' sl' ≤ capacity
          rw [hb]
          refine capInv_insert h ?_ d' sl'
          show countAt s.bookings d sl < capacity
          omega

theorem capInv_promoteLoop (d : Nat) (sl : TimeSlot) (fuel : Nat) :
    ∀ {s : EngineState}, CapInv s → CapInv (promoteLoop d sl fuel s) := by
  induction fuel with
  | zero => intro s h; exact h
  | succ n ih =>
    intro s h
    simp only [promoteLoop]
    split
    · exact h
    · next hfull =>
      split
      · exact h
      · next e heq =>
        split
        · exact ih h
        · split
          · exact ih h
          · next x s₁ heqdeb =>
            intro d' sl'
            have hb : s₁.bookings = s.bookings := by
              have hh := debit_snd_bookings e.userId 1 s
              rw [heqdeb] at hh
              exact hh
            show countAt (s₁.bookings ++ [⟨s₁.nextId, e.userId, d, sl, false, true⟩]) d' sl'
              ≤ capacity
            rw [hb]
            refine capInv_insert h ?_ d' sl'
            show countAt s.bookings d sl < capacity
            omega

theorem capInv_joinWaitlist {s : EngineState} (h : CapInv s) (u d : Nat) (sl : TimeSlot) :
    CapInv (joinWaitlist u d sl s).2 := by
  intro d' sl'
  rw [joinWaitlist_snd_bookings]
  exact h d' sl'

theorem capInv_leaveWaitlist {s : EngineState} (h : CapInv s) (a wid : Nat) :
    CapInv (leaveWaitlist a wid s).2 := by
  unfold leaveWaitlist
  split
  · exact h
  · split
    · exact h
    · exact h

theorem capInv_cancel {s : EngineState} (h : CapInv s) (a bid : Nat) :
    CapInv (cancel a bid s).2 := by
  unfold cancel
  split
  · exact h
  · next b heq =>
    split
    · refine capInv_promoteLoop _ _ _ ?_
      intro d' sl'
      show countAt (s.bookings.erase b) d' sl' ≤ capacity
      exact le_trans (countAt_erase_le s.bookings b d' sl') (h d' sl')
    · exact h

theorem capInv_recurStep {p : RecurringSummary × EngineState} (h : CapInv p.2)
    (u : Nat) (sl : TimeSlot) (dt : Nat) :
    CapInv ((recurStep u sl p dt).2) := by
  obtain ⟨acc, s⟩ := p
  simp only [recurStep]
  by_cases hhalt : acc.halted.isSome = true
  · rw [if_pos hhalt]
    exact h
  · rw [if_neg hhalt]
    split
    · next v s' heq =>
      have hh := capInv_bookSingle h u dt sl
      rw [heq] at hh
      exact hh
    · split
      · next v s' heq =>
        have hh := capInv_joinWaitlist h u dt sl
        rw [heq] at hh
        exact hh
      · exact h
    · exact h
    · exact h

theorem capInv_foldRecur (u : Nat) (sl : TimeSlot) :
    ∀ (dates : List Nat) (p : RecurringSummary × EngineState), CapInv p.2 →
      CapInv ((dates.foldl (recurStep u sl) p).2) := by
  intro dates
  induction dates with
  | nil => intro p h; exact h
  | cons dt rest ih =>
    intro p h
    rw [List.foldl_cons]
    exact ih _ (capInv_recurStep h u sl dt)

theorem capInv_bookRecurring {s : EngineState} (h : CapInv s)
    (u d : Nat) (sl : TimeSlot) (w : Nat) :
    CapInv (bookRecurring u d sl w s).2 :=
  capInv_foldRecur u sl (weekDates d w) (⟨[], [], none⟩, s) h

/-! ## Queue positions: list-level lemmas -/

theorem map_sub_one_range' : ∀ (n k : Nat),
    (List.range' (k + 1) n).map (fun m => m - 1) = List.range' k n := by
  intro n
  induction n with
  | zero => intro k; rfl
  | succ m ih =>
    intro k
    rw [List.range'_succ, List.range'_succ, List.map_cons, ih (k + 1)]
    simp

theorem filter_erase_true {α : Type} [DecidableEq α] (p : α → Bool) (e : α)
    (hpe : p e = true) : ∀ l : List α, (l.erase e).filter p = (l.filter p).erase e := by
  intro l
  induction l with
  | nil => rfl
  | cons x xs ih =>
    by_cases hx : x = e
    · subst hx
      rw [List.erase_cons_head, List.filter_cons, if_pos hpe, List.erase_cons_head]
    · have hbe : ¬ (x == e) = true := by simp [hx]
      rw [List.erase_cons_tail hbe, List.filter_cons, List.filter_cons]
      by_cases hp : p x = true
      · rw [if_pos hp, if_pos hp, List.erase_cons_tail hbe, ih]
      · rw [if_neg hp, if_neg hp, ih]

theorem filter_erase_false {α : Type} [DecidableEq α] (p : α → Bool) (e : α)
    (hpe : p e = false) : ∀ l : List α, (l.erase e).filter p = l.filter p := by
  intro l
  induction l with
  | nil => rfl
  | cons x xs ih =>
    by_cases hx : x = e
    · subst hx
      rw [List.erase_cons_head, List.filter_cons, if_neg (by simp [hpe])]
    · have hbe : ¬ (x == e) = true := by simp [hx]
      rw [List.erase_cons_tail hbe, List.filter_cons, List.filter_cons, ih]

theorem filter_map_comm {α : Type} (p : α → Bool) (f : α → α)
    (hf : ∀ x, p (f x) = p x) : ∀ l : List α, (l.map f).filter p = (l.filter p).map f := by
  intro l
  induction l with
  | nil => rfl
  | cons x xs ih =>
    rw [List.map_cons, List.filter_cons, List.filter_cons, hf x]
    by_cases hp : p x = true
    · rw [if_pos hp, if_pos hp, List.map_cons, ih]
    · rw [if_neg hp, if_neg hp, ih]

theorem shiftAfter_keyP (e : WaitlistEntry) (d : Nat) (sl : TimeSlot) (x : WaitlistEntry) :
    entryKeyP d sl (shiftAfter e x) = entryKeyP d sl x := by
  unfold shiftAfter
  split <;> rfl

/-- Removing a member of a queue whose positions read k, k+1, ... and
shifting the later entries down produces positions k, ..., k + length - 2:
the renumbering closes the gap. -/
theorem queue_renumber (e : WaitlistEntry) :
    ∀ (q : List WaitlistEntry) (k : Nat),
      (∀ x ∈ q, x.date = e.date ∧ x.slot = e.slot) →
      q.map (fun x => x.position) = List.range' k q.length →
      e ∈ q →
      ((q.erase e).map (shiftAfter e)).map (fun x => x.position)
        = List.range' k (q.length - 1) := by
  intro q
  induction q with
  | nil => intro k _ _ he; exact absurd he (List.not_mem_nil e)
  | cons a rest ih =>
    intro k hkey hpos he
    rw [List.length_cons, List.range'_succ, List.map_cons, List.cons.injEq] at hpos
    obtain ⟨hak, hrest⟩ := hpos
    by_cases hae : a = e
    · rw [hae, List.erase_cons_head]
      have hek : e.position = k := by rw [← hae]; exact hak
      have hshift : ∀ x ∈ rest, (shiftAfter e x).position = x.position - 1 := by
        intro x hx
        have hkx := hkey x (List.mem_cons_of_mem _ hx)
        have hxp : x.position ∈ List.range' (k + 1) rest.length := by
          rw [← hrest]
          exact List.mem_map_of_mem _ hx
        have hxk : k + 1 ≤ x.position := (List.mem_range'_1.mp hxp).1
        unfold shiftAfter
        rw [if_pos ⟨hkx.1.symm ▸ rfl, hkx.2.symm ▸ rfl, by omega⟩]
      rw [List.map_map]
      have : rest.map (fun x => (shiftAfter e x).position)
          = rest.map (fun x => x.position - 1) := List.map_congr_left hshift
      rw [show ((fun x => x.position) ∘ shiftAfter e) = fun x => (shiftAfter e x).position
        from rfl, this]
      have : rest.map (fun x => x.position - 1)
          = (rest.map (fun x => x.position)).map (fun m => m - 1) := by
        rw [List.map_map]; rfl
      rw [this, hrest, map_sub_one_range']
      rfl
    · have he' : e ∈ rest := by
        rcases List.mem_cons.mp he with h1 | h1
        · exact absurd h1.symm hae
        · exact h1
      have hbe : ¬ (a == e) = true := by simp [hae]
      rw [List.erase_cons_tail hbe, List.map_cons, List.map_cons]
      have hepos : k + 1 ≤ e.position := by
        have : e.position ∈ List.range' (k + 1) rest.length := by
          rw [← hrest]
          exact List.mem_map_of_mem _ he'
        exact (List.mem_range'_1.mp this).1
      have hsa : shiftAfter e a = a := by
        unfold shiftAfter
        rw [if_neg]
        rintro ⟨-, -, hlt⟩
        omega
      have hlen : 0 < rest.length := List.length_pos.mpr (List.ne_nil_of_mem he')
      have hrec := ih (k + 1)
        (fun x hx => hkey x (List.mem_cons_of_mem _ hx)) hrest he'
      rw [hsa, hak, hrec, List.length_cons]
      have h2 : List.range' k (rest.length + 1 - 1)
          = k :: List.range' (k + 1) (rest.length - 1) := by
        rw [show rest.length + 1 - 1 = (rest.length - 1) + 1 from by omega,
          List.range'_succ]
      rw [h2]

theorem queueAt_eq (l : List WaitlistEntry) (d : Nat) (sl : TimeSlot) :
    queueAt l d sl = l.filter (entryKeyP d sl) := rfl

/-! ## Queue invariant preservation -/

theorem queueInv_remove {s : EngineState} (h : QueueInv s) {e : WaitlistEntry}
    (he : e ∈ s.waitlist) : QueueInv (removeWaitlistEntry e s) := by
  intro d sl
  show ((queueAt ((s.waitlist.erase e).map (shiftAfter e)) d sl).map (fun x => x.position))
    = List.range' 1 (queueAt ((s.waitlist.erase e).map (shiftAfter e)) d sl).length
  rw [queueAt_eq, filter_map_comm _ _ (shiftAfter_keyP e d sl)]
  by_cases hk : e.date = d ∧ e.slot = sl
  · have hpe : entryKeyP d sl e = true := decide_eq_true hk
    rw [filter_erase_true _ _ hpe]
    have he' : e ∈ s.waitlist.filter (entryKeyP d sl) := List.mem_filter.mpr ⟨he, hpe⟩
    have hkey : ∀ x ∈ s.waitlist.filter (entryKeyP d sl),
        x.date = e.date ∧ x.slot = e.slot := by
      intro x hx
      have h3 : x.date = d ∧ x.slot = sl := of_decide_eq_true (List.mem_filter.mp hx).2
      exact ⟨h3.1.trans hk.1.symm, h3.2.trans hk.2.symm⟩
    have hpos := h d sl
    rw [queueAt_eq] at hpos
    rw [List.length_map, List.length_erase_of_mem he']
    exact queue_renumber e (s.waitlist.filter (entryKeyP d sl)) 1 hkey hpos he'
  · have hpe : entryKeyP d sl e = false := decide_eq_false hk
    rw [filter_erase_false _ _ hpe]
    have hid : ∀ x ∈ s.waitlist.filter (entryKeyP d sl), shiftAfter e x = x := by
      intro x hx
      have h2 : x.date = d ∧ x.slot = sl := of_decide_eq_true (List.mem_filter.mp hx).2
      unfold shiftAfter
      rw [if_neg]
      rintro ⟨h3, h4, -⟩
      exact hk ⟨by rw [← h3]; exact h2.1, by rw [← h4]; exact h2.2⟩
    rw [List.map_congr_left hid, List.map_id']
    have hh := h d sl
    rw [queueAt_eq] at hh
    exact hh

theorem queueInv_append_entry {l : List WaitlistEntry}
    (h : ∀ d0 sl0, (queueAt l d0 sl0).map (fun x => x.position)
      = List.range' 1 (queueAt l d0 sl0).length)
    (d : Nat) (sl : TimeSlot) (i u : Nat) :
    ∀ d' sl',
      (queueAt (l ++ [⟨i, u, d, sl, (queueAt l d sl).length + 1⟩]) d' sl').map
          (fun x => x.position)
        = List.range' 1
            (queueAt (l ++ [⟨i, u, d, sl, (queueAt l d sl).length + 1⟩]) d' sl').length := by
  intro d' sl'
  simp only [queueAt_eq] at h ⊢
  rw [List.filter_append]
  by_cases hk : d = d' ∧ sl = sl'
  · obtain ⟨h1, h2⟩ := hk
    subst h1
    subst h2
    have hpe : entryKeyP d sl
        (⟨i, u, d, sl, (l.filter (entryKeyP d sl)).length + 1⟩ : WaitlistEntry)
        = true := decide_eq_true ⟨rfl, rfl⟩
    rw [List.filter_cons, if_pos hpe, List.map_append, List.length_append, h d sl]
    show List.range' 1 (l.filter (entryKeyP d sl)).length
        ++ [(l.filter (entryKeyP d sl)).length + 1]
      = List.range' 1 ((l.filter (entryKeyP d sl)).length + 1)
    rw [List.range'_1_concat, Nat.add_comm 1 (l.filter (entryKeyP d sl)).length]
  · have hpe : entryKeyP d' sl'
        (⟨i, u, d, sl, (l.filter (entryKeyP d sl)).length + 1⟩ : WaitlistEntry)
        = false := decide_eq_false (fun hc => hk ⟨hc.1, hc.2⟩)
    rw [List.filter_cons, if_neg (by rw [hpe]; exact Bool.false_ne_true)]
    simp only [List.filter_nil, List.append_nil]
    exact h d' sl'

theorem queueInv_bookSingle {s : EngineState} (h : QueueInv s) (u d : Nat) (sl : TimeSlot) :
    QueueInv (bookSingle u d sl s).2 := by
  intro d' sl'
  rw [bookSingle_snd_waitlist u d sl s]
  exact h d' sl'

theorem queueInv_joinWaitlist {s : EngineState} (h : QueueInv s) (u d : Nat) (sl : TimeSlot) :
    QueueInv (joinWaitlist u d sl s).2 := by
  unfold joinWaitlist
  split
  · exact h
  · split
    · exact h
    · split
      · exact h
      · split
        · exact h
        · exact fun d' sl' => queueInv_append_entry h d sl s.nextId u d' sl'

theorem queueInv_leaveWaitlist {s : EngineState} (h : QueueInv s) (a wid : Nat) :
    QueueInv (leaveWaitlist a wid s).2 := by
  unfold leaveWaitlist
  split
  · exact h
  · next e heq =>
    split
    · exact queueInv_remove h (List.mem_of_find?_eq_some heq)
    · exact h

theorem queueInv_promoteLoop (d : Nat) (sl : TimeSlot) (fuel : Nat) :
    ∀ {s : EngineState}, QueueInv s → QueueInv (promoteLoop d sl fuel s) := by
  induction fuel with
  | zero => intro s h; exact h
  | succ n ih =>
    intro s h
    simp only [promoteLoop]
    split
    · exact h
    · split
      · exact h
      · next e heq =>
        have he : e ∈ s.waitlist := by
          have h1 : e ∈ queueAt s.waitlist d sl :=
            List.mem_of_mem_head? (by rw [heq]; rfl)
          exact (List.mem_filter.mp h1).1
        split
        · exact ih (queueInv_remove h he)
        · split
          · exact ih (queueInv_remove h he)
          · next x s₁ heqdeb =>
            have hw : s₁.waitlist = s.waitlist := by
              have hh := debit_snd_waitlist e.userId 1 s
              rw [heqdeb] at hh
              exact hh
            intro d' sl'
            show (queueAt ((s₁.waitlist.erase e).map (shiftAfter e)) d' sl').map
                (fun x => x.position)
              = List.range' 1
                  (queueAt ((s₁.waitlist.erase e).map (shiftAfter e)) d' sl').length
            rw [hw]
            exact queueInv_remove h he d' sl'

theorem queueInv_cancel {s : EngineState} (h : QueueInv s) (a bid : Nat) :
    QueueInv (cancel a bid s).2 := by
  unfold cancel
  split
  · exact h
  · split
    · unfold tryPromote
      refine queueInv_promoteLoop _ _ _ ?_
      intro d' sl'
      exact h d' sl'
    · exact h

theorem queueInv_recurStep {p : RecurringSummary × EngineState} (h : QueueInv p.2)
    (u : Nat) (sl : TimeSlot) (dt : Nat) :
    QueueInv ((recurStep u sl p dt).2) := by
  obtain ⟨acc, s⟩ := p
  simp only [recurStep]
  by_cases hhalt : acc.halted.isSome = true
  · rw [if_pos hhalt]
    exact h
  · rw [if_neg hhalt]
    split
    · next v s' heq =>
      have hh := queueInv_bookSingle h u dt sl
      rw [heq] at hh
      exact hh
    · split
      · next v s' heq =>
        have hh := queueInv_joinWaitlist h u dt sl
        rw [heq] at hh
        exact hh
      · exact h
    · exact h
    · exact h

theorem queueInv_foldRecur (u : Nat) (sl : TimeSlot) :
    ∀ (dates : List Nat) (p : RecurringSummary × EngineState), QueueInv p.2 →
      QueueInv ((dates.foldl (recurStep u sl) p).2) := by
  intro dates
  induction dates with
  | nil => intro p h; exact h
  | cons dt rest ih =>
    intro p h
    rw [List.foldl_cons]
    exact ih _ (queueInv_recurStep h u sl dt)

theorem queueInv_bookRecurring {s : EngineState} (h : QueueInv s)
    (u d : Nat) (sl : TimeSlot) (w : Nat) :
    QueueInv (bookRecurring u d sl w s).2 :=
  queueInv_foldRecur u sl (weekDates d w) (⟨[], [], none⟩, s) h

theorem queueInv_step {s s' : EngineState} (hs : Step s s') (h : QueueInv s) :
    QueueInv s' := by
  cases hs with
  | book u d sl s => exact queueInv_bookSingle h u d sl
  | cancelStep a bid s => exact queueInv_cancel h a bid
  | join u d sl s => exact queueInv_joinWaitlist h u d sl
  | leave a wid s => exact queueInv_leaveWaitlist h a wid
  | recur u d sl w s => exact queueInv_bookRecurring h u d sl w

theorem capInv_step {s s' : EngineState} (hs : Step s s') (h : CapInv s) : CapInv s' := by
  cases hs with
  | book u d sl s => exact capInv_bookSingle h u d sl
  | cancelStep a bid s => exact capInv_cancel h a bid
  | join u d sl s => exact capInv_joinWaitlist h u d sl
  | leave a wid s => exact capInv_leaveWaitlist h a wid
  | recur u d sl w s => exact capInv_bookRecurring h u d sl w

/-! ## Concrete example states -/

/-- A fresh store with one user holding one credit. -/
def c1S0 : EngineState :=
  ⟨fun _ => ⟨1, false, false⟩, [], [], [], 0, 0⟩

/-- The state after booking one slot from the fresh store. -/
def c1S1 : EngineState := (bookSingle 1 0 TimeSlot.morning c1S0).2

/-- A store whose morning slot of day 0 is full (three bookings by users
101, 102, 103); users 1, 2, 3 hold five credits each. -/
def c2S0 : EngineState :=
  ⟨fun _ => ⟨5, false, false⟩,
   [⟨900, 101, 0, TimeSlot.morning, false, false⟩,
    ⟨901, 102, 0, TimeSlot.morning, false, false⟩,
    ⟨902, 103, 0, TimeSlot.morning, false, false⟩],
   [], [], 0, 0⟩

/-- After user 1 (A) joins the waitlist of the full slot. -/
def c2S1 : EngineState := (joinWaitlist 1 0 TimeSlot.morning c2S0).2

/-- After user 2 (B) joins behind A. -/
def c2S2 : EngineState := (joinWaitlist 2 0 TimeSlot.morning c2S1).2

/-- After user 3 (C) joins behind B. -/
def c2S3 : EngineState := (joinWaitlist 3 0 TimeSlot.morning c2S2).2

/-- After B leaves (waitlist id 1 is B's entry). -/
def c2S4 : EngineState := (leaveWaitlist 2 1 c2S3).2

/-! ## Claim theorems -/

/-- C1: for every (date, slotId), after any sequence of engine calls
(bookSingle and cancel among them) starting from a state satisfying the
capacity bound, the number of active bookings for that (date, slotId) is
at most the capacity constant 3 in every reachable state, i.e. at every
observable instant. -/
theorem C1_capacity_invariant (s0 s : EngineState) (h0 : CapInv s0)
    (hr : Reach s0 s) : CapInv s := by
  induction hr with
  | refl => exact h0
  | tail h1 h2 ih => exact capInv_step h2 ih

theorem C1_capacity_invariant_witness :
    countAt c1S1.bookings 0 TimeSlot.morning ≤ capacity :=
  C1_capacity_invariant c1S0 c1S1 (fun _ _ => Nat.zero_le capacity)
    (Relation.ReflTransGen.tail Relation.ReflTransGen.refl
      (Step.book 1 0 TimeSlot.morning c1S0))
    0 TimeSlot.morning

/-- C2: in every state reachable from an empty waitlist, the positions of
each (date, slotId) queue, read in join (FIFO) order, are the contiguous
sequence 1, 2, ..., n; concretely, joining A, B, C yields positions
1, 2, 3, and after B leaves, C's position becomes 2 in the same atomic
removal step. -/
theorem C2_waitlist_fifo_positions :
    (∀ s0 s, s0.waitlist = [] → Reach s0 s → QueueInv s) ∧
    (queueAt c2S3.waitlist 0 TimeSlot.morning).map (fun e => (e.userId, e.position))
      = [(1, 1), (2, 2), (3, 3)] ∧
    (queueAt c2S4.waitlist 0 TimeSlot.morning).map (fun e => (e.userId, e.position))
      = [(1, 1), (3, 2)] := by
  refine ⟨?_, ?_, ?_⟩
  · intro s0 s h0 hr
    have hq0 : QueueInv s0 := by
      intro d sl
      rw [queueAt_eq, h0]
      rfl
    induction hr with
    | refl => exact hq0
    | tail h1 h2 ih => exact queueInv_step h2 ih
  · decide
  · decide

theorem C2_waitlist_fifo_positions_witness :
    (queueAt c2S4.waitlist 0 TimeSlot.morning).map (fun e => e.position)
      = List.range' 1 (queueAt c2S4.waitlist 0 TimeSlot.morning).length :=
  C2_waitlist_fifo_positions.1 c2S0 c2S4 rfl
    (Relation.ReflTransGen.tail
      (Relation.ReflTransGen.tail
        (Relation.ReflTransGen.tail
          (Relation.ReflTransGen.tail Relation.ReflTransGen.refl
            (Step.join 1 0 TimeSlot.morning c2S0))
          (Step.join 2 0 TimeSlot.morning c2S1))
        (Step.join 3 0 TimeSlot.morning c2S2))
      (Step.leave 2 1 c2S3))
    0 TimeSlot.morning

/-- A ledger with user 1 non-unlimited holding 2 credits and every other
user on the unlimited plan. -/
def c4S : EngineState :=
  ⟨fun v => if v = 1 then ⟨2, false, false⟩ else ⟨0, true, false⟩, [], [], [], 0, 0⟩

/-- C4: for a user with unlimited=false, debit fails with
InsufficientCredit exactly when balance < amount, and on failure the state
is unchanged (no partial debit); a user with unlimited=true passes the
check untouched and bookSingle never decrements their balance. -/
theorem C4_debit_semantics (s : EngineState) (u a : Nat) :
    ((s.users u).unlimited = false →
      (((debit u a s).1 = Except.error EngineError.insufficientCredit)
          ↔ (s.users u).credits < a) ∧
      ((s.users u).credits < a → (debit u a s).2 = s)) ∧
    ((s.users u).unlimited = true →
      debit u a s = (Except.ok (), s) ∧
      ∀ d sl, (((bookSingle u d sl s).2).users u).credits = (s.users u).credits) := by
  constructor
  · intro hu
    unfold debit
    rw [if_neg (by rw [hu]; exact Bool.false_ne_true)]
    by_cases hc : (s.users u).credits < a
    · rw [if_pos hc]
      exact ⟨⟨fun _ => hc, fun _ => rfl⟩, fun _ => rfl⟩
    · rw [if_neg hc]
      refine ⟨⟨fun hx => ?_, fun hx => absurd hx hc⟩, fun hx => absurd hx hc⟩
      exact absurd hx (by simp)
  · intro hu
    constructor
    · unfold debit
      rw [if_pos hu]
    · intro d sl
      unfold bookSingle
      split
      · rfl
      · split
        · rfl
        · split
          · rfl
          · split
            · rfl
            · next x s₁ heq =>
              unfold debit at heq
              rw [if_pos hu] at heq
              injection heq with h1 h2
              rw [← h2]

theorem C4_debit_semantics_witness :
    ((((debit 1 5 c4S).1 = Except.error EngineError.insufficientCredit)
        ↔ (c4S.users 1).credits < 5) ∧
      ((c4S.users 1).credits < 5 → (debit 1 5 c4S).2 = c4S)) ∧
    (debit 2 5 c4S = (Except.ok (), c4S) ∧
      ∀ d sl, (((bookSingle 2 d sl c4S).2).users 2).credits = (c4S.users 2).credits) :=
  ⟨(C4_debit_semantics c4S 1 5).1 rfl, (C4_debit_semantics c4S 2 5).2 rfl⟩

/-- A store with one booking (id 7) owned by user 1, who is currently on
the unlimited plan. -/
def c5S : EngineState :=
  ⟨fun _ => ⟨0, true, false⟩, [⟨7, 1, 0, TimeSlot.morning, false, false⟩], [], [], 8, 0⟩

/-- C5: a cancel by the owner or an admin of an existing booking succeeds:
the booking is removed, exactly one credit is put back on the owner's
balance unconditionally (even when the owner is on the unlimited plan and
no debit had happened), and tryPromote for the freed (date, slot) is
invoked afterwards on exactly that intermediate state. -/
theorem C5_cancel_success (s : EngineState) (actor bid : Nat) (b : Booking)
    (hfind : s.bookings.find? (fun x => decide (x.id = bid)) = some b)
    (hown : actor = b.userId ∨ (s.users actor).admin = true) :
    (cancel actor bid s).1 = Except.ok () ∧
    ∃ mid : EngineState,
      mid.bookings = s.bookings.erase b ∧
      (mid.users b.userId).credits = (s.users b.userId).credits + 1 ∧
      (cancel actor bid s).2 = tryPromote b.date b.slot mid := by
  unfold cancel
  split
  · next hnone =>
    rw [hfind] at hnone
    exact Option.noConfusion hnone
  · next b' heq =>
    rw [hfind] at heq
    injection heq with hb
    subst hb
    rw [if_pos hown]
    refine ⟨rfl, creditUser b.userId 1 { s with bookings := s.bookings.erase b },
      rfl, ?_, rfl⟩
    show ((updateUser b.userId _ _).users b.userId).credits
      = (s.users b.userId).credits + 1
    simp [updateUser]

theorem C5_cancel_success_witness :
    (cancel 1 7 c5S).1 = Except.ok () ∧
    ∃ mid : EngineState,
      mid.bookings = c5S.bookings.erase ⟨7, 1, 0, TimeSlot.morning, false, false⟩ ∧
      (mid.users 1).credits = (c5S.users 1).credits + 1 ∧
      (cancel 1 7 c5S).2 = tryPromote 0 TimeSlot.morning mid :=
  C5_cancel_success c5S 1 7 ⟨7, 1, 0, TimeSlot.morning, false, false⟩ rfl (Or.inl rfl)

/-- A fresh store for the idempotent-cancellation scenario. -/
def c6S0 : EngineState :=
  ⟨fun _ => ⟨1, false, false⟩, [], [], [], 0, 0⟩

/-- After user 1 books (booking id 0). -/
def c6S1 : EngineState := (bookSingle 1 0 TimeSlot.morning c6S0).2

/-- After the booking is cancelled once. -/
def c6S2 : EngineState := (cancel 1 0 c6S1).2

/-- C6: cancelling a booking id that does not exist (for instance one
already cancelled) returns NotFound and returns the state unchanged, so
bookings, waitlists and balances are untouched and no second credit is
ever issued. -/
theorem C6_cancel_notFound (s : EngineState) (actor bid : Nat)
    (h : s.bookings.find? (fun x => decide (x.id = bid)) = none) :
    cancel actor bid s = (Except.error EngineError.notFound, s) := by
  unfold cancel
  split
  · rfl
  · next b heq =>
    rw [h] at heq
    exact Option.noConfusion heq

theorem C6_cancel_notFound_witness :
    cancel 1 0 c6S2 = (Except.error EngineError.notFound, c6S2) :=
  C6_cancel_notFound c6S2 1 0 (by decide)

/-- A store with two pending transactions: id 0 is user 1's double pack,
id 1 is user 2's unlimited pack. -/
def c7S : EngineState :=
  ⟨fun _ => ⟨1, false, false⟩, [], [],
   [⟨0, 1, PackageType.double, 40, TxnStatus.pending⟩,
    ⟨1, 2, PackageType.unlimited, 50, TxnStatus.pending⟩], 2, 0⟩

/-- C7: a credit purchase request only appends a pending
CreditTransaction and leaves every user's balance and unlimited flag
unchanged; the admin confirmation of a pending transaction is what
credits the ledger: a confirmed "double" package adds 2 to the buyer's
balance without touching the unlimited flag, and a confirmed "unlimited"
package sets the unlimited flag without touching the numeric balance. -/
theorem C7_purchase_confirm (s : EngineState) (uid : Nat) (pkg : PackageType) :
    ((requestPurchase uid pkg s).2.users = s.users ∧
      (requestPurchase uid pkg s).2.transactions
        = s.transactions ++ [⟨s.nextId, uid, pkg, packagePrice pkg, TxnStatus.pending⟩]) ∧
    (∀ tid t,
      s.transactions.find?
          (fun x => decide (x.id = tid ∧ x.status = TxnStatus.pending)) = some t →
      (t.package = PackageType.double →
        (((confirmTransaction tid s).2).users t.userId).credits
            = (s.users t.userId).credits + 2 ∧
        (((confirmTransaction tid s).2).users t.userId).unlimited
            = (s.users t.userId).unlimited) ∧
      (t.package = PackageType.unlimited →
        (((confirmTransaction tid s).2).users t.userId).unlimited = true ∧
        (((confirmTransaction tid s).2).users t.userId).credits
            = (s.users t.userId).credits)) := by
  refine ⟨⟨rfl, rfl⟩, ?_⟩
  intro tid t hfind
  unfold confirmTransaction
  split
  · next hnone =>
    rw [hfind] at hnone
    exact Option.noConfusion hnone
  · next t' heq =>
    rw [hfind] at heq
    injection heq with ht'
    subst ht'
    obtain ⟨tid0, tu, tp, ta, ts⟩ := t
    constructor
    · intro ht
      cases ht
      constructor
      · show ((creditUser tu (packageCredits PackageType.double) s).users tu).credits
          = (s.users tu).credits + 2
        simp [creditUser, updateUser, packageCredits]
      · show ((creditUser tu (packageCredits PackageType.double) s).users tu).unlimited
          = (s.users tu).unlimited
        simp [creditUser, updateUser]
    · intro ht
      cases ht
      constructor
      · show ((grantUnlimited tu s).users tu).unlimited = true
        simp [grantUnlimited, updateUser]
      · show ((grantUnlimited tu s).users tu).credits = (s.users tu).credits
        simp [grantUnlimited, updateUser]

theorem C7_purchase_confirm_witness :
    (requestPurchase 1 PackageType.double c7S).2.users = c7S.users ∧
    ((confirmTransaction 0 c7S).2.users 1).credits = (c7S.users 1).credits + 2 ∧
    ((confirmTransaction 1 c7S).2.users 2).unlimited = true ∧
    ((confirmTransaction 1 c7S).2.users 2).credits = (c7S.users 2).credits :=
  ⟨(C7_purchase_confirm c7S 1 PackageType.double).1.1,
   (((C7_purchase_confirm c7S 1 PackageType.double).2 0
      ⟨0, 1, PackageType.double, 40, TxnStatus.pending⟩ rfl).1 rfl).1,
   (((C7_purchase_confirm c7S 1 PackageType.double).2 1
      ⟨1, 2, PackageType.unlimited, 50, TxnStatus.pending⟩ rfl).2 rfl).1,
   (((C7_purchase_confirm c7S 1 PackageType.double).2 1
      ⟨1, 2, PackageType.unlimited, 50, TxnStatus.pending⟩ rfl).2 rfl).2⟩

/-- C9: every engine operation that can fail (booking, waitlist join,
waitlist leave, cancel) either succeeds or reports its failure
synchronously as exactly one typed error of the section-7 taxonomy while
returning the state unchanged: no failure is swallowed into a success,
none has a partial effect, and — the operations being plain functions of
the state — none is retried by the engine itself. -/
theorem C9_typed_errors (s : EngineState) (u d wid bid a : Nat) (sl : TimeSlot) :
    ((∃ v s', bookSingle u d sl s = (Except.ok v, s')) ∨
      (∃ e, bookSingle u d sl s = (Except.error e, s))) ∧
    ((∃ v s', joinWaitlist u d sl s = (Except.ok v, s')) ∨
      (∃ e, joinWaitlist u d sl s = (Except.error e, s))) ∧
    ((∃ s', leaveWaitlist a wid s = (Except.ok (), s')) ∨
      (∃ e, leaveWaitlist a wid s = (Except.error e, s))) ∧
    ((∃ s', cancel a bid s = (Except.ok (), s')) ∨
      (∃ e, cancel a bid s = (Except.error e, s))) := by
  refine ⟨?_, ?_, ?_, ?_⟩
  · unfold bookSingle
    split
    · exact Or.inr ⟨EngineError.pastDate, rfl⟩
    · split
      · exact Or.inr ⟨EngineError.slotFull, rfl⟩
      · split
        · exact Or.inr ⟨EngineError.alreadyBooked, rfl⟩
        · split
          · next e x heq => exact Or.inr ⟨e, rfl⟩
          · exact Or.inl ⟨_, _, rfl⟩
  · unfold joinWaitlist
    split
    · exact Or.inr ⟨EngineError.pastDate, rfl⟩
    · split
      · exact Or.inr ⟨EngineError.slotNotFull, rfl⟩
      · split
        · exact Or.inr ⟨EngineError.alreadyBooked, rfl⟩
        · split
          · exact Or.inr ⟨EngineError.alreadyWaitlisted, rfl⟩
          · exact Or.inl ⟨_, _, rfl⟩
  · unfold leaveWaitlist
    split
    · exact Or.inr ⟨EngineError.notFound, rfl⟩
    · split
      · exact Or.inl ⟨_, rfl⟩
      · exact Or.inr ⟨EngineError.notOwner, rfl⟩
  · unfold cancel
    split
    · exact Or.inr ⟨EngineError.notFound, rfl⟩
    · split
      · exact Or.inl ⟨_, rfl⟩
      · exact Or.inr ⟨EngineError.notOwner, rfl⟩

/-- C10: the client's recurringWeeks state starts at its default 4, and
every value reachable through the dialog's week buttons stays in the
rendered option set {2, 4, 6, 8}; hence every recurring booking request
the client issues carries is_recurring = true and a recurring_weeks drawn
from {2, 4, 6, 8}. -/
theorem C10_recurring_weeks (w : Nat) (hw : WeeksReachable w) (d : Nat) (k : String) :
    recurringWeeksDefault = 4 ∧
    (recurringBookingRequest d k w).is_recurring = true ∧
    (recurringBookingRequest d k w).recurring_weeks ∈ recurringWeeksOptions ∧
    recurringWeeksOptions = [2, 4, 6, 8] := by
  refine ⟨rfl, rfl, ?_, rfl⟩
  induction hw with
  | refl =>
    show recurringWeeksDefault ∈ recurringWeeksOptions
    decide
  | tail h1 h2 _ =>
    cases h2 with
    | select hmem => exact hmem

theorem C10_recurring_weeks_witness :
    recurringWeeksDefault = 4 ∧
    (recurringBookingRequest 0 "morning" 2).is_recurring = true ∧
    (recurringBookingRequest 0 "morning" 2).recurring_weeks ∈ recurringWeeksOptions ∧
    recurringWeeksOptions = [2, 4, 6, 8] :=
  C10_recurring_weeks 2
    (Relation.ReflTransGen.tail
      (Relation.ReflTransGen.tail Relation.ReflTransGen.refl
        (WeeksStep.select 4 6 (by decide)))
      (WeeksStep.select 6 2 (by decide)))
    0 "morning"

/-- C8 counterexample: the claim names the second slot identifier
"midmorning", but the dashboard renders the slot keys "morning" and
"afternoon" (DashboardPage.jsx lines 429-430): "midmorning" is not an
identifier anywhere, and "afternoon" is. -/
theorem C8_slot_names_counterexample :
    "midmorning" ∉ dashboardSlotKeys ∧ "afternoon" ∈ dashboardSlotKeys ∧
    dashboardSlotKeys ≠ ["morning", "midmorning"] := by
  refine ⟨by decide, by decide, by decide⟩

/-- C8 amended: the time-slot identifiers are drawn from the same fixed
set of two daily slots named "morning" and "afternoon", used consistently
by the dashboard and the admin settings; the "afternoon" slot is merely
displayed as "Mid-Morning" (9:30 AM - 10:15 AM). -/
theorem C8_slot_names_amended :
    dashboardSlotKeys = ["morning", "afternoon"] ∧
    adminSessionSlotKeys = dashboardSlotKeys ∧
    slotHeading "morning" = "Early Morning" ∧
    slotHeading "afternoon" = "Mid-Morning" ∧
    waitlistTimeDisplay "morning" = "5:30 AM - 6:15 AM" ∧
    waitlistTimeDisplay "afternoon" = "9:30 AM - 10:15 AM" := by
  refine ⟨rfl, rfl, by decide, by decide, by decide, by decide⟩

/-- One recurring-loop step grows booked or waitlisted by at most the
processed date, appended at the end. -/
theorem recurStep_cases (u : Nat) (sl : TimeSlot)
    (p : RecurringSummary × EngineState) (dt : Nat) :
    ((recurStep u sl p dt).1.booked = p.1.booked ∧
      (recurStep u sl p dt).1.waitlisted = p.1.waitlisted) ∨
    ((recurStep u sl p dt).1.booked = p.1.booked ++ [dt] ∧
      (recurStep u sl p dt).1.waitlisted = p.1.waitlisted) ∨
    ((recurStep u sl p dt).1.booked = p.1.booked ∧
      (recurStep u sl p dt).1.waitlisted = p.1.waitlisted ++ [dt]) := by
  obtain ⟨acc, s⟩ := p
  simp only [recurStep]
  by_cases hh : acc.halted.isSome = true
  · rw [if_pos hh]
    exact Or.inl ⟨rfl, rfl⟩
  · rw [if_neg hh]
    split
    · exact Or.inr (Or.inl ⟨rfl, rfl⟩)
    · split
      · exact Or.inr (Or.inr ⟨rfl, rfl⟩)
      · exact Or.inl ⟨rfl, rfl⟩
    · exact Or.inl ⟨rfl, rfl⟩
    · exact Or.inl ⟨rfl, rfl⟩

/-- Over any date list, the recurring loop's booked and waitlisted
summaries extend the accumulator by ordered sublists of the dates. -/
theorem recur_dates_sublist (u : Nat) (sl : TimeSlot) :
    ∀ (dates : List Nat) (p : RecurringSummary × EngineState),
      ∃ tb tw,
        (dates.foldl (recurStep u sl) p).1.booked = p.1.booked ++ tb ∧
        (dates.foldl (recurStep u sl) p).1.waitlisted = p.1.waitlisted ++ tw ∧
        List.Sublist tb dates ∧ List.Sublist tw dates := by
  intro dates
  induction dates with
  | nil =>
    intro p
    exact ⟨[], [], by simp, by simp, List.Sublist.refl _, List.Sublist.refl _⟩
  | cons dt rest ih =>
    intro p
    rw [List.foldl_cons]
    obtain ⟨tb, tw, hb, hw, hsb, hsw⟩ := ih (recurStep u sl p dt)
    rcases recurStep_cases u sl p dt with ⟨h1, h2⟩ | ⟨h1, h2⟩ | ⟨h1, h2⟩
    · refine ⟨tb, tw, ?_, ?_, ?_, ?_⟩
      · rw [hb, h1]
      · rw [hw, h2]
      · exact List.Sublist.cons dt hsb
      · exact List.Sublist.cons dt hsw
    · refine ⟨dt :: tb, tw, ?_, ?_, ?_, ?_⟩
      · rw [hb, h1, List.append_assoc]
        rfl
      · rw [hw, h2]
      · exact List.Sublist.cons₂ dt hsb
      · exact List.Sublist.cons dt hsw
    · refine ⟨tb, dt :: tw, ?_, ?_, ?_, ?_⟩
      · rw [hb, h1]
      · rw [hw, h2, List.append_assoc]
        rfl
      · exact List.Sublist.cons dt hsb
      · exact List.Sublist.cons₂ dt hsw

/-- Anchor state for the recurring example: the slot of day anchor+14 is
already full (three bookings by users 101, 102, 103) and user 1 holds 4
credits; the anchor is day 0. -/
def c3S0 : EngineState :=
  ⟨fun v => if v = 1 then ⟨4, false, false⟩ else ⟨0, false, false⟩,
   [⟨902, 101, 14, TimeSlot.morning, false, false⟩,
    ⟨903, 102, 14, TimeSlot.morning, false, false⟩,
    ⟨904, 103, 14, TimeSlot.morning, false, false⟩],
   [], [], 10, 0⟩

/-- C3: bookRecurring processes the weeks i = 0..weeks-1 in chronological
order, each targeting anchor + 7*i days: the booked and waitlisted dates
of the summary are always ordered sublists of
[anchor, anchor+7, ..., anchor+7*(weeks-1)], a strictly increasing list;
and a full slot on one week does not abort the sequence but falls back to
a waitlist join for that date and continues: with anchor day 0, slot
morning, weeks = 4 and the third week (day 14) full, the summary books
days 0, 7, 21 and waitlists day 14. -/
theorem C3_recurring_fallback :
    (∀ u d sl w s,
      List.Sublist (bookRecurring u d sl w s).1.booked (weekDates d w) ∧
      List.Sublist (bookRecurring u d sl w s).1.waitlisted (weekDates d w) ∧
      List.Pairwise (· < ·) (weekDates d w)) ∧
    (bookRecurring 1 0 TimeSlot.morning 4 c3S0).1
      = ⟨[0, 7, 21], [14], none⟩ := by
  constructor
  · intro u d sl w s
    obtain ⟨tb, tw, hb, hw, hsb, hsw⟩ :=
      recur_dates_sublist u sl (weekDates d w) (⟨[], [], none⟩, s)
    rw [List.nil_append] at hb hw
    refine ⟨?_, ?_, ?_⟩
    · unfold bookRecurring
      rw [hb]
      exact hsb
    · unfold bookRecurring
      rw [hw]
      exact hsw
    · unfold weekDates
      exact List.Pairwise.map _ (fun a b hab => by omega) (List.pairwise_lt_range w)
  · decide
